import Mathlib

/-!
Verification development for the TheLeagueWiki-LLM repository.

The repository has two components:
* `WikiScraper.py` — a MediaWiki scraper (`MediaWikiScraper`): pagination over
  the `list=allpages` endpoint (`get_all_page_titles`), per-title revision
  fetches (`get_page_content`), trivial cleanup (`clean_wikitext`) and record
  assembly (`scrape_all_content`).
* `convert_wiki.py` — an exporter: `sanitize_filename` and
  `convert_json_to_documents`, turning a JSON array of article records into
  per-article text files with a fixed header.

Python strings are modelled as `List Char`; Python dicts with optional keys as
structures with `Option` fields; network responses as explicit inductive data
fed to the (otherwise pure) control flow of the source functions.  Filesystem
writes are modelled as an ordered list of (path, contents) pairs in which a
later write to the same path overwrites an earlier one.
-/

namespace WikiSpec

/-- Strings are modelled as lists of characters. -/
abbrev Str := List Char

/-- The whitespace characters matched by Python's `\s` and stripped by
`str.strip()` (ASCII range): space, tab, newline, carriage return, vertical
tab, form feed. -/
def isPySpace (c : Char) : Bool :=
  c = ' ' || c = '\t' || c = '\n' || c = '\r' || c = '\x0B' || c = '\x0C'

/-- Python `str.strip()` with no arguments: drop whitespace from both ends. -/
def pyStrip (s : Str) : Str :=
  ((s.dropWhile isPySpace).reverse.dropWhile isPySpace).reverse

/-- Helper for `countTokens`: the Boolean records whether the previous
character belonged to a token (so a fresh non-space character does not open a
new token). -/
def countTokensAux : Bool → Str → Nat
  | _, [] => 0
  | inTok, c :: rest =>
    if isPySpace c then countTokensAux false rest
    else (if inTok then 0 else 1) + countTokensAux true rest

/-- `len(s.split())` in Python: the number of maximal runs of non-whitespace
characters.  Used by the scraper for the `word_count` field. -/
def countTokens (s : Str) : Nat := countTokensAux false s

/-! ### `sanitize_filename` (convert_wiki.py, lines 12–23) -/

/-- The characters replaced by `re.sub(r'[<>:"/\\|?*]', '_', title)`. -/
def isIllegalChar (c : Char) : Bool :=
  c = '<' || c = '>' || c = ':' || c = '"' || c = '/' || c = '\\' ||
    c = '|' || c = '?' || c = '*'

/-- First step of `sanitize_filename`: each illegal character becomes an
underscore. -/
def replaceIllegal (t : Str) : Str :=
  t.map (fun c => if isIllegalChar c then '_' else c)

/-- Helper for `collapseWs`; the Boolean records whether the previous
character was whitespace (in which case the underscore for the current
whitespace run has already been emitted). -/
def collapseWsAux : Bool → Str → Str
  | _, [] => []
  | inWs, c :: rest =>
    if isPySpace c then (if inWs then [] else ['_']) ++ collapseWsAux true rest
    else c :: collapseWsAux false rest

/-- Second step of `sanitize_filename`: `re.sub(r'\s+', '_', s)`, replacing
each maximal run of whitespace with a single underscore. -/
def collapseWs (s : Str) : Str := collapseWsAux false s

/-- The characters stripped by `str.strip('._')`. -/
def isDotUnderscore (c : Char) : Bool := c = '.' || c = '_'

/-- Third step of `sanitize_filename`: `s.strip('._')`, dropping dots and
underscores from both ends. -/
def stripDotsUnderscores (s : Str) : Str :=
  ((s.dropWhile isDotUnderscore).reverse.dropWhile isDotUnderscore).reverse

/-- The value of the `filename` variable just before the length check in
`sanitize_filename`. -/
def sanitized_pretrunc (title : Str) : Str :=
  stripDotsUnderscores (collapseWs (replaceIllegal title))

/-- `sanitize_filename` from convert_wiki.py: replace illegal characters,
collapse whitespace runs to underscores, strip leading/trailing dots and
underscores, then truncate to 200 characters if longer. -/
def sanitize_filename (title : Str) : Str :=
  let filename := sanitized_pretrunc title
  if filename.length > 200 then filename.take 200 else filename

/-! ### Pagination over `list=allpages` (WikiScraper.py, lines 32–73) -/

/-- One successful JSON response of the listing endpoint: `pages` is
`query.allpages[].title` when the response has `query` and `allpages` keys,
`cont` is `continue.apcontinue` when present. -/
structure ListResponse where
  pages : Option (List Str)
  cont : Option Str
deriving DecidableEq

/-- One round trip of the listing loop as observed by `get_all_page_titles`:
either the request raises (connection error, bad status, invalid JSON) or a
response arrives. -/
inductive ListStep where
  | fail
  | ok (r : ListResponse)
deriving DecidableEq

/-- The `while True` loop of `get_all_page_titles`, driven by the stream of
server behaviours.  `acc` is `all_titles`, `tok` the `apcontinue` parameter
of the request being issued.  Besides the returned title list, the second
component records the `apcontinue` parameter of every request actually
issued (the trace used to state token advancement); the source returns only
the titles.  An exhausted stream (`[]`) cannot be observed by the source loop
and returns the accumulator. -/
def getAllPageTitlesAux : List Str → Option Str → List ListStep → List Str × List (Option Str)
  | acc, _, [] => (acc, [])
  | acc, tok, .fail :: _ => (acc, [tok])
  | acc, tok, .ok ⟨pages, none⟩ :: _ => (acc ++ pages.getD [], [tok])
  | acc, tok, .ok ⟨pages, some t⟩ :: rest =>
    ((getAllPageTitlesAux (acc ++ pages.getD []) (some t) rest).1,
      tok :: (getAllPageTitlesAux (acc ++ pages.getD []) (some t) rest).2)

/-- `get_all_page_titles` from WikiScraper.py: start with an empty
accumulator and no continuation token. -/
def get_all_page_titles (steps : List ListStep) : List Str × List (Option Str) :=
  getAllPageTitlesAux [] none steps

/-- The response of a server that has no pages left and returns no
continuation token. -/
def terminalResponse : ListResponse := ⟨none, none⟩

/-- A complete, failure-free pagination: at least one response, every
response before the last carries a continuation token, the last one does
not. -/
def CompleteRun : List ListResponse → Bool
  | [] => false
  | [r] => r.cont.isNone
  | r :: rest => r.cont.isSome && CompleteRun rest

/-! ### Revision fetch (WikiScraper.py, lines 75–100) -/

/-- One revision entry: the field `slots_main` is `slots.main['*']`, the raw
markup carried by `rvslots=main` responses. -/
structure PageRevision where
  slots_main : Str
deriving DecidableEq

/-- One entry of the `query.pages` object; `revisions` is empty when the
`revisions` key is missing or holds an empty list. -/
structure PageEntry where
  revisions : List PageRevision
deriving DecidableEq

/-- Outcome of the single request issued by `get_page_content`: a raised
exception, or the `query.pages` values in dict iteration order (an empty
list when `query`/`pages` is missing). -/
inductive QueryOutcome where
  | fail
  | ok (pages : List PageEntry)
deriving DecidableEq

/-- The `for page_id, page_data in pages.items()` loop of
`get_page_content`: return the first revision content of the first page
whose `revisions` list is non-empty. -/
def firstRevisionContent : List PageEntry → Option Str
  | [] => none
  | p :: rest =>
    match p.revisions with
    | [] => firstRevisionContent rest
    | r :: _ => some r.slots_main

/-- `get_page_content` from WikiScraper.py: `None` on a raised exception,
otherwise scan the pages for a non-empty revisions list. -/
def get_page_content : QueryOutcome → Option Str
  | .fail => none
  | .ok pages => firstRevisionContent pages

/-! ### Record assembly (WikiScraper.py, lines 102–150) -/

/-- `clean_wikitext` from WikiScraper.py: empty input maps to empty output,
otherwise `wikitext.strip()`. -/
def clean_wikitext (w : Str) : Str :=
  if w = [] then [] else pyStrip w

/-- `title.replace(' ', '_')` as used to build the article URL. -/
def replaceSpaces (t : Str) : Str :=
  t.map (fun c => if c = ' ' then '_' else c)

/-- `f"{self.base_url}/wiki/{title.replace(' ', '_')}"`. -/
def pageUrl (base t : Str) : Str :=
  base ++ "/wiki/".data ++ replaceSpaces t

/-- The `page_data` dict built by `scrape_all_content` for each kept title. -/
structure ArticleRecord where
  title : Str
  url : Str
  content : Str
  raw_content : Str
  word_count : Nat
deriving DecidableEq

/-- The body of the per-title loop of `scrape_all_content`: `fetch` gives the
result of `self.get_page_content(title)`; an absent or empty (falsy) raw
content is skipped, and so is content whose cleaned form is
whitespace-only. -/
def processTitle (base : Str) (fetch : Str → Option Str) (t : Str) : Option ArticleRecord :=
  match fetch t with
  | none => none
  | some raw =>
    if raw = [] then none
    else
      let clean := clean_wikitext raw
      if pyStrip clean = [] then none
      else some ⟨t, pageUrl base t, clean, raw, countTokens clean⟩

/-- The record sequence accumulated by `scrape_all_content` over a given
title list (checkpoint and final file writes serialize exactly this list). -/
def scrape_all_content (base : Str) (fetch : Str → Option Str) (titles : List Str) :
    List ArticleRecord :=
  titles.filterMap (processTitle base fetch)

/-! ### Exporter (`convert_json_to_documents`, convert_wiki.py lines 25–107) -/

/-- One element of the deserialized JSON array: a dict whose keys may be
missing, read with `article.get(key, default)`. -/
structure JsonArticle where
  title : Option Str
  content : Option Str
  url : Option Str
  word_count : Option Nat
deriving DecidableEq

/-- `article.get('title', 'Untitled')`. -/
def getTitle (a : JsonArticle) : Str := a.title.getD "Untitled".data

/-- `article.get('content', '')`. -/
def getContent (a : JsonArticle) : Str := a.content.getD []

/-- `article.get('url', '')`. -/
def getUrl (a : JsonArticle) : Str := a.url.getD []

/-- `article.get('word_count', 0)`. -/
def getWordCount (a : JsonArticle) : Nat := a.word_count.getD 0

/-- The decimal digit characters, for rendering an integer the way Python's
`str` does inside the f-string. -/
def digitChar : Nat → Char
  | 0 => '0' | 1 => '1' | 2 => '2' | 3 => '3' | 4 => '4'
  | 5 => '5' | 6 => '6' | 7 => '7' | 8 => '8' | _ => '9'

/-- Digit accumulation helper for `natToStr`; the first argument is fuel
(always at least the number being rendered), keeping the recursion
structural. -/
def natToStrGo : Nat → Nat → Str
  | 0, _ => []
  | _, 0 => []
  | fuel + 1, n + 1 => natToStrGo fuel ((n + 1) / 10) ++ [digitChar ((n + 1) % 10)]

/-- Decimal rendering of a natural number, as Python's `str(word_count)`. -/
def natToStr (n : Nat) : Str :=
  if n = 0 then ['0'] else natToStrGo n n

/-- The f-string of `convert_json_to_documents`:
`f"TITLE: {title}\nURL: {url}\nWORD COUNT: {word_count}\n\nCONTENT:\n{content}\n"`. -/
def document_content (title url : Str) (wc : Nat) (content : Str) : Str :=
  "TITLE: ".data ++ title ++ "\nURL: ".data ++ url ++ "\nWORD COUNT: ".data ++
    natToStr wc ++ "\n\nCONTENT:\n".data ++ content ++ "\n".data

/-- The per-article body of the export loop: `None` when the article is
skipped (`not content.strip()`), otherwise the (filename, file text) pair
that gets written. -/
def processArticle (a : JsonArticle) : Option (Str × Str) :=
  if pyStrip (getContent a) = [] then none
  else
    some (sanitize_filename (getTitle a) ++ ".txt".data,
      document_content (getTitle a) (getUrl a) (getWordCount a) (getContent a))

/-- The export loop of `convert_json_to_documents`: returns the ordered list
of file writes together with `(converted_count, skipped_count)`. -/
def convert_json_to_documents : List JsonArticle → List (Str × Str) × Nat × Nat
  | [] => ([], 0, 0)
  | a :: rest =>
    match processArticle a with
    | none =>
      ((convert_json_to_documents rest).1, (convert_json_to_documents rest).2.1,
        (convert_json_to_documents rest).2.2 + 1)
    | some w =>
      (w :: (convert_json_to_documents rest).1, (convert_json_to_documents rest).2.1 + 1,
        (convert_json_to_documents rest).2.2)

/-- The state of the output directory after a sequence of writes: the file
at path `p` holds the contents of the last write to `p` (`open(..., 'w')`
truncates and overwrites). -/
def fsAfter (writes : List (Str × Str)) (p : Str) : Option Str :=
  (writes.reverse.find? (fun w => w.1 == p)).map (fun w => w.2)

/-- The JSON object serialized for an in-memory `ArticleRecord`: every key
present (`json.dump` writes all dict entries; `raw_content` is not read back
by the exporter). -/
def ArticleRecord.toJson (r : ArticleRecord) : JsonArticle :=
  ⟨some r.title, some r.content, some r.url, some r.word_count⟩

/-- The path the exporter chooses for a record. -/
def exportPath (r : ArticleRecord) : Str :=
  sanitize_filename r.title ++ ".txt".data

/-- The file text the exporter writes for a record. -/
def documentOf (r : ArticleRecord) : Str :=
  document_content r.title r.url r.word_count r.content

/-! ### Re-reading an exported file (for the round-trip property)

The fixed header layout affords an evident parse: consume each literal tag,
split each header field at the first newline, and drop the final newline the
f-string appends after the content. -/

/-- Consume an expected literal from the front of a string. -/
def eatLit : Str → Str → Option Str
  | [], s => some s
  | _, [] => none
  | e :: es, c :: cs => if c = e then eatLit es cs else none

/-- Split at the first newline: `some (before, after)`, or `none` when the
string has no newline. -/
def splitAtNewline : Str → Option (Str × Str)
  | [] => none
  | c :: rest =>
    if c = '\n' then some ([], rest)
    else (splitAtNewline rest).map (fun q => (c :: q.1, q.2))

/-- Is `c` one of the characters `'0'`–`'9'`? -/
def isDigitChar (c : Char) : Bool := 48 ≤ c.toNat && c.toNat ≤ 57

/-- Numeric value of a digit character. -/
def digitVal (c : Char) : Nat := c.toNat - 48

/-- The step of decimal parsing. -/
def parseStep (acc : Nat) (c : Char) : Nat := acc * 10 + digitVal c

/-- Parse a non-empty all-digit string as a natural number. -/
def parseDecimal (s : Str) : Option Nat :=
  if !s.isEmpty && s.all isDigitChar then some (s.foldl parseStep 0) else none

/-- Remove a trailing newline, failing when there is none. -/
def chompNewline (s : Str) : Option Str :=
  match s.reverse with
  | '\n' :: rest => some rest.reverse
  | _ => none

/-- Read the four record fields back out of an exported file's text. -/
def parse_document (s : Str) : Option (Str × Str × Nat × Str) := do
  let s1 ← eatLit "TITLE: ".data s
  let (title, s2) ← splitAtNewline s1
  let s3 ← eatLit "URL: ".data s2
  let (url, s4) ← splitAtNewline s3
  let s5 ← eatLit "WORD COUNT: ".data s4
  let (wcs, s6) ← splitAtNewline s5
  let wc ← parseDecimal wcs
  let s7 ← eatLit "\nCONTENT:\n".data s6
  let content ← chompNewline s7
  pure (title, url, wc, content)

/-! ### Concrete instances used to evaluate the properties -/

/-- A 201-character title whose 200th character is a dot. -/
def c4Title : Str := List.replicate 199 'a' ++ ['.', 'a']

/-- A two-page, failure-free pagination. -/
def c5run : List ListResponse :=
  [⟨some ["Alpha".data, "Beta".data], some "tok1".data⟩, ⟨some ["Gamma".data], none⟩]

/-- A successful first page that promises a continuation. -/
def c6resp : ListResponse := ⟨some ["Alpha".data], some "tok1".data⟩

/-- Responses the server would have delivered after the failed request. -/
def c6rest : List ListStep := [ListStep.ok ⟨some ["Zeta".data], none⟩]

/-- A `query.pages` object with one revision-less page and one carrying
markup. -/
def c7pages : List PageEntry := [⟨[]⟩, ⟨[⟨"== Heading ==".data⟩]⟩]

/-- A base URL for the scraper instances. -/
def c8base : Str := "https://wiki.example".data

/-- A fetch oracle knowing a single title. -/
def c8fetch : Str → Option Str :=
  fun t => if t = "My Page".data then some " raw markup ".data else none

/-- A fetch oracle returning whitespace-only markup. -/
def c8fetchBlank : Str → Option Str := fun _ => some [' ']

/-- The title list for the concrete scrape. -/
def c8titles : List Str := ["My Page".data]

/-- The record the concrete scrape produces. -/
def c8rec : ArticleRecord :=
  ⟨"My Page".data, "https://wiki.example/wiki/My_Page".data, "raw markup".data,
    " raw markup ".data, 2⟩

/-- A well-behaved record for the round-trip witness. -/
def c2w : ArticleRecord :=
  ⟨"Test Page".data, "https://wiki.example/wiki/Test_Page".data, "Hello world".data,
    "Hello world".data, 2⟩

/-- Two records whose titles sanitize to the same filename. -/
def c2colA : ArticleRecord := ⟨"a?".data, "u1".data, "x".data, "x".data, 1⟩

/-- See `c2colA`. -/
def c2colB : ArticleRecord := ⟨"a*".data, "u2".data, "y".data, "y".data, 1⟩

/-- A record whose title embeds a newline followed by a fake URL line. -/
def c2nl : ArticleRecord := ⟨'A' :: '\n' :: "URL: B".data, "C".data, "x".data, "x".data, 1⟩

/-- Two records whose titles sanitize to the same filename (export
invariant). -/
def c9r1 : ArticleRecord := ⟨"b?".data, "u1".data, "x".data, "x".data, 1⟩

/-- See `c9r1`. -/
def c9r2 : ArticleRecord := ⟨"b*".data, "u2".data, "y".data, "y".data, 1⟩

/-- A single collision-free record. -/
def c9w : ArticleRecord := ⟨"Solo".data, "u".data, "body".data, "body".data, 1⟩

/-! ### Lemmas about `sanitize_filename` -/

theorem dropWhile_head_not {α : Type} (p : α → Bool) (l : List α) (c : α)
    (h : (l.dropWhile p).head? = some c) : p c = false := by
  induction l with
  | nil => simp at h
  | cons a l ih =>
    rw [List.dropWhile_cons] at h
    by_cases hp : p a = true
    · rw [if_pos hp] at h
      exact ih h
    · rw [if_neg hp] at h
      simp only [List.head?_cons, Option.some.injEq] at h
      subst h
      simpa using hp

theorem mem_replaceIllegal (t : Str) (c : Char) (h : c ∈ replaceIllegal t) :
    isIllegalChar c = false := by
  simp only [replaceIllegal, List.mem_map] at h
  obtain ⟨a, _, ha⟩ := h
  by_cases hi : isIllegalChar a = true
  · rw [if_pos hi] at ha
    subst ha
    decide
  · rw [if_neg hi] at ha
    subst ha
    simpa using hi

theorem mem_collapseWsAux (s : Str) (c : Char) :
    ∀ b : Bool, c ∈ collapseWsAux b s → c = '_' ∨ (c ∈ s ∧ isPySpace c = false) := by
  induction s with
  | nil => simp [collapseWsAux]
  | cons a s ih =>
    intro b h
    simp only [collapseWsAux] at h
    by_cases ha : isPySpace a = true
    · rw [if_pos ha] at h
      rcases List.mem_append.mp h with h1 | h2
      · left
        cases b <;> simp_all
      · rcases ih true h2 with h3 | h4
        · exact Or.inl h3
        · exact Or.inr ⟨List.mem_cons_of_mem a h4.1, h4.2⟩
    · rw [if_neg ha] at h
      rcases List.mem_cons.mp h with h1 | h2
      · subst h1
        exact Or.inr ⟨List.mem_cons_self _ _, by simpa using ha⟩
      · rcases ih false h2 with h3 | h4
        · exact Or.inl h3
        · exact Or.inr ⟨List.mem_cons_of_mem a h4.1, h4.2⟩

theorem mem_stripDotsUnderscores (s : Str) (c : Char) (h : c ∈ stripDotsUnderscores s) :
    c ∈ s := by
  simp only [stripDotsUnderscores, List.mem_reverse] at h
  have h2 := (List.dropWhile_suffix isDotUnderscore).subset h
  rw [List.mem_reverse] at h2
  exact (List.dropWhile_suffix isDotUnderscore).subset h2

theorem mem_sanitized_pretrunc (t : Str) (c : Char) (h : c ∈ sanitized_pretrunc t) :
    isIllegalChar c = false ∧ isPySpace c = false := by
  have h1 : c ∈ collapseWs (replaceIllegal t) := mem_stripDotsUnderscores _ _ h
  rcases mem_collapseWsAux _ c false h1 with h2 | ⟨h3, h4⟩
  · subst h2
    exact ⟨by decide, by decide⟩
  · exact ⟨mem_replaceIllegal _ _ h3, h4⟩

theorem head_stripDotsUnderscores (s : Str) (c : Char)
    (h : (stripDotsUnderscores s).head? = some c) : isDotUnderscore c = false := by
  simp only [stripDotsUnderscores] at h
  rw [List.head?_reverse] at h
  obtain ⟨pre, hpre⟩ :=
    List.dropWhile_suffix (l := (s.dropWhile isDotUnderscore).reverse) isDotUnderscore
  have h2 : ((s.dropWhile isDotUnderscore).reverse).getLast? = some c := by
    rw [← hpre, List.getLast?_append, h]
    rfl
  rw [List.getLast?_reverse] at h2
  exact dropWhile_head_not _ _ _ h2

theorem getLast_stripDotsUnderscores (s : Str) (c : Char)
    (h : (stripDotsUnderscores s).getLast? = some c) : isDotUnderscore c = false := by
  simp only [stripDotsUnderscores] at h
  rw [List.getLast?_reverse] at h
  exact dropWhile_head_not _ _ _ h

/-- Claim C1: `sanitize_filename` is a pure function computing its result by
exactly the four source steps in order — replace each character of
`<>:"/\|?*` by an underscore, collapse each whitespace run to a single
underscore, strip leading and trailing dots and underscores, truncate to at
most 200 characters — and on `My/Page:Name?` it returns `My_Page_Name`. -/
theorem sanitize_filename_steps :
    sanitize_filename "My/Page:Name?".data = "My_Page_Name".data ∧
    ∀ t : Str,
      sanitize_filename t =
        (if (sanitized_pretrunc t).length > 200 then (sanitized_pretrunc t).take 200
          else sanitized_pretrunc t) ∧
      sanitized_pretrunc t = stripDotsUnderscores (collapseWs (replaceIllegal t)) :=
  ⟨by decide, fun _ => ⟨rfl, rfl⟩⟩

/-- Claim C4 (amended): for every title, the result of `sanitize_filename`
contains no illegal character and no whitespace, has length at most 200, and
never begins with a dot or underscore; it also never ends with a dot or
underscore provided no truncation occurred (the stripped string was already
at most 200 characters long).  Truncation happens after stripping, so it can
re-expose a trailing dot or underscore. -/
theorem sanitize_filename_shape : ∀ t : Str,
    (∀ c ∈ sanitize_filename t, isIllegalChar c = false ∧ isPySpace c = false) ∧
    (sanitize_filename t).length ≤ 200 ∧
    (∀ c : Char, (sanitize_filename t).head? = some c → isDotUnderscore c = false) ∧
    ((sanitized_pretrunc t).length ≤ 200 →
      ∀ c : Char, (sanitize_filename t).getLast? = some c → isDotUnderscore c = false) := by
  intro t
  refine ⟨?_, ?_, ?_, ?_⟩
  · intro c hc
    have hmem : c ∈ sanitized_pretrunc t := by
      simp only [sanitize_filename] at hc
      by_cases h200 : (sanitized_pretrunc t).length > 200
      · rw [if_pos h200] at hc
        exact List.take_subset _ _ hc
      · rwa [if_neg h200] at hc
    exact mem_sanitized_pretrunc t c hmem
  · simp only [sanitize_filename]
    by_cases h200 : (sanitized_pretrunc t).length > 200
    · rw [if_pos h200, List.length_take]
      exact min_le_left _ _
    · rw [if_neg h200]
      omega
  · intro c hc
    simp only [sanitize_filename] at hc
    by_cases h200 : (sanitized_pretrunc t).length > 200
    · rw [if_pos h200, List.head?_take, if_neg (by decide : ¬(200 = 0))] at hc
      exact head_stripDotsUnderscores _ _ hc
    · rw [if_neg h200] at hc
      exact head_stripDotsUnderscores _ _ hc
  · intro hle c hc
    simp only [sanitize_filename] at hc
    rw [if_neg (by omega)] at hc
    exact getLast_stripDotsUnderscores _ _ hc

set_option maxRecDepth 4000 in
/-- Claim C4, counterexample: on the 201-character title `c4Title`
(199 letters, a dot, a letter), `sanitize_filename` returns a string that
ends with a dot — the claimed "never ends with a dot or underscore" fails. -/
theorem sanitize_filename_shape_counterexample :
    ¬ (∀ c : Char, (sanitize_filename c4Title).getLast? = some c → isDotUnderscore c = false) := by
  intro h
  exact absurd (h '.' (by decide)) (by decide)

/-- Witness for `sanitize_filename_shape` at the title `My Page`
(sanitized to `My_Page`): the member `e`, the head `M` and the last
character `e` satisfy the claimed character properties. -/
theorem sanitize_filename_shape_witness :
    isIllegalChar 'e' = false ∧ isPySpace 'e' = false ∧
      isDotUnderscore 'M' = false ∧ isDotUnderscore 'e' = false :=
  ⟨((sanitize_filename_shape "My Page".data).1 'e' (by decide)).1,
   ((sanitize_filename_shape "My Page".data).1 'e' (by decide)).2,
   (sanitize_filename_shape "My Page".data).2.2.1 'M' (by decide),
   (sanitize_filename_shape "My Page".data).2.2.2 (by decide) 'e' (by decide)⟩

/-! ### Lemmas about pagination and revision fetch -/

theorem getAllPageTitlesAux_complete :
    ∀ (rs : List ListResponse) (acc : List Str) (tok : Option Str),
      CompleteRun rs = true →
      getAllPageTitlesAux acc tok (rs.map .ok) =
        (acc ++ (rs.map (fun r => r.pages.getD [])).flatten,
          tok :: rs.dropLast.map (fun r => r.cont))
  | [], _, _, h => by simp [CompleteRun] at h
  | [⟨pages, cont⟩], acc, tok, h => by
    have hc : cont = none := by
      simpa [CompleteRun, Option.isNone_iff_eq_none] using h
    subst hc
    simp [getAllPageTitlesAux]
  | ⟨pages, cont⟩ :: r2 :: rest, acc, tok, h => by
    simp only [CompleteRun, Bool.and_eq_true] at h
    obtain ⟨t, ht⟩ := Option.isSome_iff_exists.mp h.1
    have hc : cont = some t := ht
    subst hc
    have ih := getAllPageTitlesAux_complete (r2 :: rest) (acc ++ pages.getD []) (some t) h.2
    simp only [List.map_cons] at ih
    simp only [List.map_cons, getAllPageTitlesAux]
    simp [ih, List.append_assoc]

theorem getAllPageTitlesAux_failure :
    ∀ (rs : List ListResponse) (acc : List Str) (tok : Option Str) (rest : List ListStep),
      (∀ r ∈ rs, r.cont.isSome = true) →
      getAllPageTitlesAux acc tok (rs.map .ok ++ .fail :: rest) =
        (acc ++ (rs.map (fun r => r.pages.getD [])).flatten, tok :: rs.map (fun r => r.cont))
  | [], acc, tok, rest, _ => by simp [getAllPageTitlesAux]
  | ⟨pages, cont⟩ :: rs, acc, tok, rest, h => by
    obtain ⟨t, ht⟩ := Option.isSome_iff_exists.mp (h _ (List.mem_cons_self _ _))
    have hc : cont = some t := ht
    subst hc
    have ih := getAllPageTitlesAux_failure rs (acc ++ pages.getD []) (some t) rest
      (fun x hx => h x (List.mem_cons_of_mem _ hx))
    simp only [List.map_cons, List.cons_append, getAllPageTitlesAux]
    simp [ih, List.append_assoc]

theorem completeRun_append_terminal :
    ∀ rs : List ListResponse, (∀ r ∈ rs, r.cont.isSome = true) →
      CompleteRun (rs ++ [terminalResponse]) = true
  | [], _ => by simp [CompleteRun, terminalResponse]
  | r :: rs, h => by
    have ih := completeRun_append_terminal rs (fun x hx => h x (List.mem_cons_of_mem _ hx))
    cases rs with
    | nil => simp [CompleteRun, terminalResponse, h r (List.mem_cons_self _ _)]
    | cons r2 rs2 =>
      simp only [List.cons_append, CompleteRun, Bool.and_eq_true]
      exact ⟨h r (List.mem_cons_self _ _), by simpa using ih⟩

/-- Claim C5: on a failure-free response sequence whose continuation tokens
run out exactly at the last response, `get_all_page_titles` returns the
concatenation of each page's titles in server order (each page appended
exactly once), issues its first request with no continuation token and each
following request with exactly the token of the previous response, and stops
at the token-less response. -/
theorem get_all_page_titles_complete (rs : List ListResponse) (h : CompleteRun rs = true) :
    get_all_page_titles (rs.map .ok) =
      ((rs.map (fun r => r.pages.getD [])).flatten,
        none :: rs.dropLast.map (fun r => r.cont)) := by
  have h2 := getAllPageTitlesAux_complete rs [] none h
  simpa [get_all_page_titles] using h2

/-- Witness for `get_all_page_titles_complete` on a concrete two-page run. -/
theorem get_all_page_titles_complete_witness :
    get_all_page_titles (c5run.map ListStep.ok) =
      (["Alpha".data, "Beta".data, "Gamma".data], [none, some "tok1".data]) := by
  rw [get_all_page_titles_complete c5run (by decide)]
  decide

/-- Claim C6: when a listing request raises after a run of successful
responses (each carrying a continuation token), the loop stops at the
failure, ignores everything after it, and returns exactly the titles of the
successful responses as a plain list — the same value a failure-free run
delivering those pages would return, so nothing distinguishes the partial
result. -/
theorem get_all_page_titles_partial (rs : List ListResponse) (rest : List ListStep)
    (h : ∀ r ∈ rs, r.cont.isSome = true) :
    get_all_page_titles (rs.map .ok ++ .fail :: rest) =
      ((rs.map (fun r => r.pages.getD [])).flatten, none :: rs.map (fun r => r.cont)) ∧
    (get_all_page_titles (rs.map .ok ++ .fail :: rest)).1 =
      (get_all_page_titles ((rs ++ [terminalResponse]).map .ok)).1 := by
  have h1 := getAllPageTitlesAux_failure rs [] none rest h
  have h2 := getAllPageTitlesAux_complete (rs ++ [terminalResponse]) [] none
    (completeRun_append_terminal rs h)
  constructor
  · simpa [get_all_page_titles] using h1
  · simp only [get_all_page_titles, h1, h2]
    simp [terminalResponse]

/-- Witness for `get_all_page_titles_partial`: one successful page, then a
failure; the delivered-later page `Zeta` is lost silently. -/
theorem get_all_page_titles_partial_witness :
    get_all_page_titles ([c6resp].map ListStep.ok ++ ListStep.fail :: c6rest) =
      (["Alpha".data], [none, some "tok1".data]) ∧
    (get_all_page_titles (([c6resp] ++ [terminalResponse]).map ListStep.ok)).1
      = ["Alpha".data] := by
  have h := get_all_page_titles_partial [c6resp] c6rest (by decide)
  refine ⟨?_, ?_⟩
  · rw [h.1]
    decide
  · rw [← h.2, h.1]
    decide

/-- Claim C7: `get_page_content` returns `None` when the request fails and
when every page of the response has no (or an empty) revisions list, and
returns exactly the `slots.main` markup of the first revision of the first
page carrying a non-empty revisions list. -/
theorem get_page_content_spec :
    get_page_content .fail = none ∧
    (∀ pages : List PageEntry, (∀ p ∈ pages, p.revisions = []) →
      get_page_content (.ok pages) = none) ∧
    (∀ (pages : List PageEntry) (p : PageEntry) (r : PageRevision) (rs : List PageRevision),
      pages.find? (fun q => !q.revisions.isEmpty) = some p → p.revisions = r :: rs →
      get_page_content (.ok pages) = some r.slots_main) := by
  refine ⟨rfl, ?_, ?_⟩
  · intro pages h
    induction pages with
    | nil => rfl
    | cons p ps ih =>
      have hp : p.revisions = [] := h p (List.mem_cons_self _ _)
      simp only [get_page_content, firstRevisionContent, hp]
      exact ih (fun x hx => h x (List.mem_cons_of_mem _ hx))
  · intro pages
    induction pages with
    | nil =>
      intro p r rs hfind _
      simp at hfind
    | cons q ps ih =>
      intro p r rs hfind hrev
      by_cases hq : q.revisions.isEmpty = true
      · have hqnil : q.revisions = [] := List.isEmpty_iff.mp hq
        rw [List.find?_cons] at hfind
        simp only [hqnil] at hfind
        simp only [get_page_content, firstRevisionContent, hqnil]
        exact ih p r rs (by simpa using hfind) hrev
      · have hq2 : q.revisions.isEmpty = false := by simpa using hq
        rw [List.find?_cons] at hfind
        simp only [hq2, Bool.not_false] at hfind
        injection hfind with hfind
        subst hfind
        simp only [get_page_content, firstRevisionContent, hrev]

/-- Witness for `get_page_content_spec`: a failed request and a revision-less
page give `none`; a response whose second page carries markup returns that
markup exactly. -/
theorem get_page_content_spec_witness :
    get_page_content (.ok c7pages) = some "== Heading ==".data ∧
    get_page_content (.ok [⟨[]⟩]) = none ∧
    get_page_content .fail = none :=
  ⟨get_page_content_spec.2.2 c7pages ⟨[⟨"== Heading ==".data⟩]⟩ ⟨"== Heading ==".data⟩ []
      (by decide) rfl,
   get_page_content_spec.2.1 [⟨[]⟩] (by decide),
   get_page_content_spec.1⟩

/-! ### Lemmas about the exporter -/

theorem find?_as_filter {α : Type} (q : α → Bool) (l : List α) :
    l.find? q = (l.filter q).head? := by
  induction l with
  | nil => rfl
  | cons a l ih =>
    rw [List.find?_cons, List.filter_cons]
    cases hqa : q a
    · rw [if_neg (by simp)]
      exact ih
    · rw [if_pos rfl]
      rfl

theorem filter_key_unique :
    ∀ (ws : List (Str × Str)) (p d : Str), (p, d) ∈ ws →
      (ws.map (fun w => w.1)).Nodup →
      ws.filter (fun w => w.1 == p) = [(p, d)]
  | [], _, _, hmem, _ => by simp at hmem
  | w :: ws, p, d, hmem, hnd => by
    rw [List.map_cons, List.nodup_cons] at hnd
    rcases List.mem_cons.mp hmem with heq | hmem2
    · subst heq
      have hcl : List.filter (fun w => w.1 == p) ws = [] := by
        rw [List.filter_eq_nil_iff]
        intro x hx hbx
        exact hnd.1 (beq_iff_eq.mp hbx ▸ List.mem_map.mpr ⟨x, hx, rfl⟩)
      simp [List.filter_cons, hcl]
    · have hp : p ∈ ws.map (fun w => w.1) :=
        List.mem_map.mpr ⟨(p, d), hmem2, rfl⟩
      have hne : (w.1 == p) = false := by
        apply beq_eq_false_iff_ne.mpr
        intro hx
        exact hnd.1 (hx ▸ hp)
      rw [List.filter_cons, hne]
      simp only [if_neg (by simp : ¬(false = true))]
      exact filter_key_unique ws p d hmem2 hnd.2

theorem fsAfter_eq_of_filter (ws : List (Str × Str)) (p d : Str)
    (h : ws.filter (fun w => w.1 == p) = [(p, d)]) : fsAfter ws p = some d := by
  simp only [fsAfter]
  rw [find?_as_filter, List.filter_reverse, h]
  rfl

theorem convert_writes :
    ∀ l : List JsonArticle, (convert_json_to_documents l).1 = l.filterMap processArticle
  | [] => rfl
  | a :: l => by
    have ih := convert_writes l
    cases h : processArticle a <;>
      simp [convert_json_to_documents, List.filterMap_cons, h, ih]

theorem convert_counts :
    ∀ l : List JsonArticle,
      (convert_json_to_documents l).2.1 + (convert_json_to_documents l).2.2 = l.length
  | [] => rfl
  | a :: l => by
    have ih := convert_counts l
    cases h : processArticle a <;> simp [convert_json_to_documents, h] <;> omega

theorem processArticle_none_iff (a : JsonArticle) :
    processArticle a = none ↔ (pyStrip (getContent a)).isEmpty = true := by
  unfold processArticle
  by_cases h : pyStrip (getContent a) = []
  · simp [h]
  · simp [h, List.isEmpty_iff]

theorem convert_skipped :
    ∀ l : List JsonArticle,
      (convert_json_to_documents l).2.2 = l.countP (fun a => (pyStrip (getContent a)).isEmpty)
  | [] => rfl
  | a :: l => by
    have ih := convert_skipped l
    rw [List.countP_cons]
    cases h : processArticle a
    · have hb : (pyStrip (getContent a)).isEmpty = true := (processArticle_none_iff a).mp h
      simp [convert_json_to_documents, h, hb, ih]
    · have hb : (pyStrip (getContent a)).isEmpty = false := by
        cases hE : (pyStrip (getContent a)).isEmpty
        · rfl
        · exact absurd ((processArticle_none_iff a).mpr hE) (by simp [h])
      simp [convert_json_to_documents, h, hb, ih]

theorem processArticle_toJson (r : ArticleRecord) (h : (pyStrip r.content).isEmpty = false) :
    processArticle (ArticleRecord.toJson r) = some (exportPath r, documentOf r) := by
  have hne : ¬ (pyStrip r.content = []) := List.isEmpty_eq_false.mp h
  simp only [processArticle, ArticleRecord.toJson, getContent, getTitle, getUrl, getWordCount,
    Option.getD_some]
  rw [if_neg hne]
  rfl

theorem export_write_mem (records : List ArticleRecord) (r : ArticleRecord)
    (hr : r ∈ records) (h : (pyStrip r.content).isEmpty = false) :
    (exportPath r, documentOf r) ∈ (records.map ArticleRecord.toJson).filterMap processArticle :=
  List.mem_filterMap.mpr ⟨ArticleRecord.toJson r, List.mem_map_of_mem _ hr,
    processArticle_toJson r h⟩

theorem export_lookup (records : List ArticleRecord) (r : ArticleRecord)
    (hnd : (((records.map ArticleRecord.toJson).filterMap processArticle).map
      (fun w => w.1)).Nodup)
    (hr : r ∈ records) (h : (pyStrip r.content).isEmpty = false) :
    (convert_json_to_documents (records.map ArticleRecord.toJson)).1.filter
        (fun w => w.1 == exportPath r) = [(exportPath r, documentOf r)] ∧
      fsAfter (convert_json_to_documents (records.map ArticleRecord.toJson)).1 (exportPath r)
        = some (documentOf r) := by
  have hw := convert_writes (records.map ArticleRecord.toJson)
  have hfil := filter_key_unique _ _ _ (export_write_mem records r hr h) hnd
  rw [hw]
  exact ⟨hfil, fsAfter_eq_of_filter _ _ _ hfil⟩

/-! ### Decimal rendering and the header parse -/

theorem digitChar_spec : ∀ d : Nat, d < 10 →
    isDigitChar (digitChar d) = true ∧ digitVal (digitChar d) = d := by decide

theorem natToStrGo_spec :
    ∀ (fuel n : Nat), n ≤ fuel →
      (natToStrGo fuel n).all isDigitChar = true ∧
      (natToStrGo fuel n).foldl parseStep 0 = n := by
  intro fuel
  induction fuel with
  | zero =>
    intro n hn
    have h0 : n = 0 := Nat.le_zero.mp hn
    subst h0
    simp [natToStrGo]
  | succ fuel ih =>
    intro n hn
    cases n with
    | zero => simp [natToStrGo]
    | succ m =>
      have hdiv : (m + 1) / 10 ≤ fuel := by
        have := Nat.div_lt_self (Nat.succ_pos m) (by omega : 1 < 10)
        omega
      have ih2 := ih ((m + 1) / 10) hdiv
      have hd := digitChar_spec ((m + 1) % 10) (Nat.mod_lt _ (by omega))
      constructor
      · simp only [natToStrGo]
        rw [List.all_append]
        simp [ih2.1, hd.1]
      · simp only [natToStrGo]
        rw [List.foldl_append, ih2.2]
        simp only [List.foldl_cons, List.foldl_nil, parseStep, hd.2]
        omega

theorem natToStrGo_ne_nil (fuel n : Nat) (h0 : n ≠ 0) (hle : n ≤ fuel) :
    natToStrGo fuel n ≠ [] := by
  cases fuel with
  | zero => omega
  | succ f =>
    cases n with
    | zero => omega
    | succ m => simp [natToStrGo]

theorem parseDecimal_natToStr (n : Nat) : parseDecimal (natToStr n) = some n := by
  by_cases h0 : n = 0
  · subst h0
    decide
  · have hs := natToStrGo_spec n n le_rfl
    have hne := natToStrGo_ne_nil n n h0 le_rfl
    have hE : (natToStrGo n n).isEmpty = false := by
      cases hgo : natToStrGo n n
      · exact absurd hgo hne
      · rfl
    have h1 : natToStr n = natToStrGo n n := by
      unfold natToStr
      rw [if_neg h0]
    rw [h1]
    unfold parseDecimal
    rw [hE, hs.1]
    simp [hs.2]

theorem newline_not_mem_natToStr (n : Nat) : '\n' ∉ natToStr n := by
  intro hmem
  by_cases h0 : n = 0
  · subst h0
    exact absurd hmem (by decide)
  · have hs := (natToStrGo_spec n n le_rfl).1
    rw [List.all_eq_true] at hs
    have hd : isDigitChar '\n' = true := by
      apply hs
      rwa [natToStr, if_neg h0] at hmem
    exact absurd hd (by decide)

theorem eatLit_append : ∀ (p s : Str), eatLit p (p ++ s) = some s
  | [], _ => by simp [eatLit]
  | c :: p, s => by simp [eatLit, eatLit_append p s]

theorem splitAtNewline_append :
    ∀ (t r : Str), '\n' ∉ t → splitAtNewline (t ++ '\n' :: r) = some (t, r)
  | [], r, _ => by simp [splitAtNewline]
  | c :: t, r, h => by
    have hc : ¬ (c = '\n') := by
      intro hx
      subst hx
      exact h (List.mem_cons_self _ _)
    have ih := splitAtNewline_append t r (fun hx => h (List.mem_cons_of_mem _ hx))
    simp [splitAtNewline, hc, ih]

theorem chompNewline_append (c : Str) : chompNewline (c ++ ['\n']) = some c := by
  unfold chompNewline
  simp [List.reverse_append]

theorem parse_document_roundtrip (t u : Str) (w : Nat) (c : Str)
    (ht : '\n' ∉ t) (hu : '\n' ∉ u) :
    parse_document (document_content t u w c) = some (t, u, w, c) := by
  have hw : '\n' ∉ natToStr w := newline_not_mem_natToStr w
  have e1 : "\nURL: ".data = '\n' :: "URL: ".data := rfl
  have e2 : "\nWORD COUNT: ".data = '\n' :: "WORD COUNT: ".data := rfl
  have e3 : "\n\nCONTENT:\n".data = '\n' :: "\nCONTENT:\n".data := rfl
  have e4 : "\n".data = ['\n'] := rfl
  have shape : document_content t u w c =
      "TITLE: ".data ++ (t ++ '\n' :: ("URL: ".data ++ (u ++ '\n' :: ("WORD COUNT: ".data ++
        (natToStr w ++ '\n' :: ("\nCONTENT:\n".data ++ (c ++ ['\n']))))))) := by
    simp only [document_content, e1, e2, e3, e4, List.append_assoc, List.cons_append]
  rw [shape]
  simp only [parse_document, Option.bind_eq_bind, eatLit_append, Option.some_bind,
    splitAtNewline_append t _ ht, splitAtNewline_append u _ hu,
    splitAtNewline_append (natToStr w) _ hw, parseDecimal_natToStr, chompNewline_append]
  rfl

/-! ### Claim theorems about the exporter -/

/-- Claim C3: every record whose content trims to empty is excluded from the
writes and counted as skipped, the writes are exactly the processed
non-empty records, and `converted + skipped` equals the number of input
records. -/
theorem convert_totals : ∀ l : List JsonArticle,
    (convert_json_to_documents l).2.1 + (convert_json_to_documents l).2.2 = l.length ∧
    (convert_json_to_documents l).2.2 = l.countP (fun a => (pyStrip (getContent a)).isEmpty) ∧
    (convert_json_to_documents l).1 = l.filterMap processArticle ∧
    ∀ a : JsonArticle, (processArticle a = none ↔ (pyStrip (getContent a)).isEmpty = true) :=
  fun l => ⟨convert_counts l, convert_skipped l, convert_writes l, processArticle_none_iff⟩

/-- Claim C2 (amended): exporting a record list and re-reading the file at
each exported record's path recovers its title, url, word_count and content
through the evident parse of the fixed header format, provided the sanitized
filenames of the exported records are pairwise distinct and titles and urls
contain no newline.  (A filename collision makes the later record overwrite
the earlier one's file, and a newline inside a title or url makes the header
lines ambiguous.) -/
theorem export_roundtrip (records : List ArticleRecord)
    (hnd : (((records.map ArticleRecord.toJson).filterMap processArticle).map
      (fun w => w.1)).Nodup)
    (hnl : ∀ r ∈ records, '\n' ∉ r.title ∧ '\n' ∉ r.url) :
    ∀ r ∈ records, (pyStrip r.content).isEmpty = false →
      (fsAfter (convert_json_to_documents (records.map ArticleRecord.toJson)).1
          (exportPath r)).bind parse_document
        = some (r.title, r.url, r.word_count, r.content) := by
  intro r hr h
  rw [(export_lookup records r hnd hr h).2, Option.some_bind]
  exact parse_document_roundtrip r.title r.url r.word_count r.content (hnl r hr).1 (hnl r hr).2

/-- Claim C2, counterexample: with two records whose titles `a?` and `a*`
both sanitize to filename `a`, the second write overwrites the first, so
re-reading does not recover the first record's fields; and with a single
record whose title contains a newline followed by a fake `URL: ` line, the
header parse cannot recover the fields either. -/
theorem export_roundtrip_counterexample :
    (¬ ∀ r ∈ [c2colA, c2colB], (pyStrip r.content).isEmpty = false →
      (fsAfter (convert_json_to_documents ([c2colA, c2colB].map ArticleRecord.toJson)).1
          (exportPath r)).bind parse_document
        = some (r.title, r.url, r.word_count, r.content)) ∧
    (¬ ∀ r ∈ [c2nl], (pyStrip r.content).isEmpty = false →
      (fsAfter (convert_json_to_documents ([c2nl].map ArticleRecord.toJson)).1
          (exportPath r)).bind parse_document
        = some (r.title, r.url, r.word_count, r.content)) := by
  constructor <;> decide

/-- Witness for `export_roundtrip` on a singleton list: the file written for
`c2w` parses back to exactly its four fields. -/
theorem export_roundtrip_witness :
    (fsAfter (convert_json_to_documents ([c2w].map ArticleRecord.toJson)).1
        (exportPath c2w)).bind parse_document
      = some (c2w.title, c2w.url, c2w.word_count, c2w.content) :=
  export_roundtrip [c2w] (by decide) (by decide) c2w (by decide) (by decide)

/-- Claim C9 (amended): after export, every record with non-empty trimmed
content has exactly one write at its sanitized path, holding exactly its
header and content, provided the exported records' sanitized filenames are
pairwise distinct; records with blank content produce no write and are
counted as skipped.  (With a filename collision the earlier record's file is
overwritten, so it no longer yields a document of its own.) -/
theorem export_invariant (records : List ArticleRecord)
    (hnd : (((records.map ArticleRecord.toJson).filterMap processArticle).map
      (fun w => w.1)).Nodup) :
    (∀ r ∈ records, (pyStrip r.content).isEmpty = false →
      (convert_json_to_documents (records.map ArticleRecord.toJson)).1.filter
          (fun w => w.1 == exportPath r) = [(exportPath r, documentOf r)] ∧
        fsAfter (convert_json_to_documents (records.map ArticleRecord.toJson)).1 (exportPath r)
          = some (documentOf r)) ∧
    (∀ r : ArticleRecord, (pyStrip r.content).isEmpty = true →
      processArticle (ArticleRecord.toJson r) = none) ∧
    (convert_json_to_documents (records.map ArticleRecord.toJson)).2.2
      = records.countP (fun r => (pyStrip r.content).isEmpty) := by
  refine ⟨fun r hr h => export_lookup records r hnd hr h, ?_, ?_⟩
  · intro r h
    have h0 : pyStrip r.content = [] := List.isEmpty_iff.mp h
    simp [processArticle, ArticleRecord.toJson, getContent, h0]
  · rw [convert_skipped, List.countP_map]
    rfl

/-- Claim C9, counterexample: the records `c9r1` (title `b?`) and `c9r2`
(title `b*`) both export to `b.txt`; after export the file holds only the
second record's document, so the first record does not yield a document of
its own. -/
theorem export_invariant_counterexample :
    ¬ ∀ r ∈ [c9r1, c9r2], (pyStrip r.content).isEmpty = false →
      fsAfter (convert_json_to_documents ([c9r1, c9r2].map ArticleRecord.toJson)).1
          (exportPath r)
        = some (documentOf r) := by
  decide

/-- Witness for `export_invariant` on a singleton list. -/
theorem export_invariant_witness :
    (convert_json_to_documents ([c9w].map ArticleRecord.toJson)).1.filter
        (fun w => w.1 == exportPath c9w) = [(exportPath c9w, documentOf c9w)] ∧
      fsAfter (convert_json_to_documents ([c9w].map ArticleRecord.toJson)).1 (exportPath c9w)
        = some (documentOf c9w) :=
  (export_invariant [c9w] (by decide)).1 c9w (by decide) (by decide)

/-- Claim C10: a missing title, url or word_count is replaced by `Untitled`,
the empty string and `0` respectively — the record is still exported, with
the defaults in the filename and header — and only missing or blank content
makes the exporter skip a record. -/
theorem export_defaults : ∀ a : JsonArticle,
    processArticle a = processArticle ⟨some (getTitle a), a.content, some (getUrl a),
      some (getWordCount a)⟩ ∧
    (processArticle a = none ↔ (pyStrip (getContent a)).isEmpty = true) ∧
    ∀ c : Str, processArticle ⟨none, some c, none, none⟩ =
      if pyStrip c = [] then none
      else some (sanitize_filename "Untitled".data ++ ".txt".data,
        document_content "Untitled".data [] 0 c) := by
  intro a
  refine ⟨rfl, processArticle_none_iff a, fun c => rfl⟩

/-! ### Claim theorem about record assembly (`scrape_all_content`) -/

/-- Claim C8: a fetched title whose markup trims to empty is skipped (as is
a title whose fetch fails), and every produced record carries the source
title, the base URL extended with `/wiki/` and the space-to-underscore
title, the trimmed markup as content, the untrimmed markup as raw content,
and the whitespace-token count of the content as word count. -/
theorem scrape_record_shape (base : Str) (fetch : Str → Option Str) (titles : List Str) :
    (∀ t raw, fetch t = some raw → pyStrip raw = [] → processTitle base fetch t = none) ∧
    (∀ t, fetch t = none → processTitle base fetch t = none) ∧
    ∀ rec ∈ scrape_all_content base fetch titles,
      rec.title ∈ titles ∧
      fetch rec.title = some rec.raw_content ∧
      rec.content = pyStrip rec.raw_content ∧
      rec.url = base ++ "/wiki/".data ++ replaceSpaces rec.title ∧
      rec.word_count = countTokens rec.content := by
  refine ⟨?_, ?_, ?_⟩
  · intro t raw hf hs
    simp only [processTitle, hf]
    by_cases h0 : raw = []
    · simp [h0]
    · have hclean : clean_wikitext raw = pyStrip raw := by
        unfold clean_wikitext
        rw [if_neg h0]
      have hnil : pyStrip ([] : Str) = [] := rfl
      simp [h0, hclean, hs, hnil]
  · intro t hf
    simp [processTitle, hf]
  · intro rec hrec
    obtain ⟨t, hq, hp⟩ := List.mem_filterMap.mp hrec
    simp only [processTitle] at hp
    cases hf : fetch t with
    | none =>
      rw [hf] at hp
      exact absurd hp (by simp)
    | some raw =>
      simp only [hf] at hp
      by_cases h0 : raw = []
      · rw [if_pos h0] at hp
        exact absurd hp (by simp)
      · rw [if_neg h0] at hp
        by_cases h1 : pyStrip (clean_wikitext raw) = []
        · rw [if_pos h1] at hp
          exact absurd hp (by simp)
        · rw [if_neg h1] at hp
          injection hp with hp
          subst hp
          have hclean : clean_wikitext raw = pyStrip raw := by
            unfold clean_wikitext
            rw [if_neg h0]
          exact ⟨hq, hf, hclean, rfl, rfl⟩

/-- Witness for `scrape_record_shape`: whitespace-only markup is skipped,
and the record scraped for `My Page` has the documented shape. -/
theorem scrape_record_shape_witness :
    processTitle c8base c8fetchBlank "My Page".data = none ∧
    (c8rec.title ∈ c8titles ∧
      c8fetch c8rec.title = some c8rec.raw_content ∧
      c8rec.content = pyStrip c8rec.raw_content ∧
      c8rec.url = c8base ++ "/wiki/".data ++ replaceSpaces c8rec.title ∧
      c8rec.word_count = countTokens c8rec.content) :=
  ⟨(scrape_record_shape c8base c8fetchBlank c8titles).1 "My Page".data [' '] rfl (by decide),
   (scrape_record_shape c8base c8fetch c8titles).2.2 c8rec (by decide)⟩

end WikiSpec
